import Mathlib

/-!
# Raft3D — verification of the replicated state machine and front end

Shallow embedding of the Raft3D 3D-print management backend (Go sources:
`fsm.go`, `store.go`, `server.go`, `main.go`).  The deterministic FSM
(`fsm.Apply`), its snapshot/persist/restore pipeline, the store façade's
`Apply`, and the leader-redirection helper are translated into executable
Lean definitions; Go `float64` weights are modelled as exact rationals
(`Rat`), Go `map[string]T` as association lists built only through the
update operation below (so keyed lookup and overwrite match map semantics),
and Go `error` results as an explicit result type.
-/

namespace Raft3D

/-- `Printer` record (fsm.go). -/
structure Printer where
  id : String
  name : String
deriving DecidableEq, Repr

/-- `Filament` record (fsm.go); `weight_grams` is Go `float64`, modelled as `Rat`. -/
structure Filament where
  id : String
  type : String
  color : String
  weight_grams : Rat
deriving DecidableEq, Repr

/-- `PrintJob` record (fsm.go); field order matches the Go struct declaration. -/
structure PrintJob where
  id : String
  file_path : String
  grams_needed : Rat
  printer_id : String
  filament_id : String
  status : String
deriving DecidableEq, Repr

/-- `UpdateJobStatusData` payload of the `update_job_status` command (fsm.go). -/
structure UpdateJobStatusData where
  job_id : String
  new_status : String
deriving DecidableEq, Repr

/-- A decoded log command: the `op` tag together with its unmarshalled payload
(fsm.go `command`; `unknown` stands for any unrecognized `op` string). -/
inductive Command where
  | add_printer (p : Printer)
  | add_filament (f : Filament)
  | add_print_job (j : PrintJob)
  | update_job_status (u : UpdateJobStatusData)
  | unknown (op : String)
deriving DecidableEq, Repr

/-- Go `map[string]V`, modelled as an association list; all operations below
use the key of the first matching entry, and states built from the empty map
keep keys unique. -/
abbrev StrMap (V : Type) := List (String × V)

/-- Map lookup `m[k]` (the `, ok` form). -/
def StrMap.find? {V : Type} : StrMap V → String → Option V
  | [], _ => none
  | (k2, v) :: rest, k => if k2 = k then some v else StrMap.find? rest k

/-- Map update `m[k] = v`: overwrite the entry for `k`, or append a new one. -/
def StrMap.set {V : Type} : StrMap V → String → V → StrMap V
  | [], k, v => [(k, v)]
  | (k2, v2) :: rest, k, v =>
      if k2 = k then (k, v) :: rest else (k2, v2) :: StrMap.set rest k v

/-- Remove the entry for `k` (used only in statements, to talk about
"the other jobs"). -/
def StrMap.eraseKey {V : Type} : StrMap V → String → StrMap V
  | [], _ => []
  | (k2, v) :: rest, k => if k2 = k then rest else (k2, v) :: StrMap.eraseKey rest k

/-- The map's keys are pairwise distinct (always true of a real Go map). -/
def StrMap.NodupKeys {V : Type} (m : StrMap V) : Prop := (m.map Prod.fst).Nodup

/-- The three state containers of the FSM (fsm.go `fsmData`). -/
structure FsmData where
  Printers : StrMap Printer
  Filaments : StrMap Filament
  PrintJobs : StrMap PrintJob
deriving DecidableEq, Repr

/-- The empty state `newFSM` starts from. -/
def initialState : FsmData := ⟨[], [], []⟩

/-- The value `fsm.Apply` returns for one command: `nil` or a Go `error`
carrying a message. -/
inductive ApplyResult where
  | ok
  | err (msg : String)
deriving DecidableEq, Repr

/-- The contribution of one stored job to the reservation sum for filament id
`fid` (the body of the loop in `add_print_job`). -/
def contrib (fid : String) (j : PrintJob) : Rat :=
  if j.filament_id = fid ∧ (j.status = "Queued" ∨ j.status = "Running")
  then j.grams_needed else 0

/-- `reservedWeight`: the sum of `grams_needed` over stored jobs whose
`filament_id` is `fid` and whose status is Queued or Running (fsm.go). -/
def reservedFor (jobs : StrMap PrintJob) (fid : String) : Rat :=
  (jobs.map (fun e => contrib fid e.2)).sum

/-- fsm.go: `"printer with ID %s not found"`. -/
def printerNotFoundMsg (id : String) : String :=
  "printer with ID " ++ id ++ " not found"

/-- fsm.go: `"filament with ID %s not found"`. -/
def filamentNotFoundMsg (id : String) : String :=
  "filament with ID " ++ id ++ " not found"

/-- fsm.go: `"print job with ID %s not found"`. -/
def jobNotFoundMsg (id : String) : String :=
  "print job with ID " ++ id ++ " not found"

/-- fsm.go: `"invalid status transition from X to Y"` with the two
status strings single-quoted (`\x27` is the ASCII apostrophe). -/
def invalidTransitionMsg (a b : String) : String :=
  "invalid status transition from \x27" ++ a ++ "\x27 to \x27" ++ b ++ "\x27"

/-- fsm.go: `"unrecognized command op: %s"`. -/
def unrecognizedOpMsg (op : String) : String :=
  "unrecognized command op: " ++ op

/-- Two-digit zero padding for the fractional part of `fmt2`. -/
def pad2 (n : Nat) : String := if n < 10 then "0" ++ toString n else toString n

/-- `%.2f` on a nonnegative rational: round to hundredths, half up, computed
directly on numerator and denominator (for `q ≥ 0` the quotient below is
exactly `⌊q·100 + 1/2⌋`).  Go prints the correctly rounded decimal of the
float64; the two agree on every weight exactly representable at two decimals,
which is what the scenarios use. -/
def fmt2abs (q : Rat) : String :=
  let m : Nat := ((q.num * 200 + (q.den : Int)) / (2 * (q.den : Int))).toNat
  toString (m / 100) ++ "." ++ pad2 (m % 100)

/-- Go `%.2f` formatting, modelled on the rational value. -/
def fmt2 (q : Rat) : String :=
  if q < 0 then "-" ++ fmt2abs (-q) else fmt2abs q

/-- fsm.go: the insufficient-filament failure message, carrying the required,
available, total and reserved grams. -/
def insufficientMsg (req avail total resv : Rat) : String :=
  "insufficient filament: required " ++ fmt2 req ++ "g, available " ++ fmt2 avail ++
  "g (" ++ fmt2 total ++ "g total - " ++ fmt2 resv ++ "g reserved)"

/-- The Go zero value of `Filament`, which a map read of an absent key yields. -/
def zeroFilament : Filament := ⟨"", "", "", 0⟩

/-- One step of `fsm.Apply` (fsm.go lines 68–168) on an already-decoded
command: returns the successor state and the apply result. -/
def applyCmd (s : FsmData) (c : Command) : FsmData × ApplyResult :=
  match c with
  | .add_printer p =>
      ({ s with Printers := s.Printers.set p.id p }, .ok)
  | .add_filament f =>
      ({ s with Filaments := s.Filaments.set f.id f }, .ok)
  | .add_print_job j =>
      match s.Printers.find? j.printer_id with
      | none => (s, .err (printerNotFoundMsg j.printer_id))
      | some _ =>
        match s.Filaments.find? j.filament_id with
        | none => (s, .err (filamentNotFoundMsg j.filament_id))
        | some filament =>
          let reservedWeight := reservedFor s.PrintJobs j.filament_id
          let availableWeight := filament.weight_grams - reservedWeight
          if availableWeight < j.grams_needed then
            (s, .err (insufficientMsg j.grams_needed availableWeight
                        filament.weight_grams reservedWeight))
          else
            ({ s with PrintJobs := s.PrintJobs.set j.id { j with status := "Queued" } }, .ok)
  | .update_job_status u =>
      match s.PrintJobs.find? u.job_id with
      | none => (s, .err (jobNotFoundMsg u.job_id))
      | some job =>
        let currentStatus := job.status
        let newStatus := u.new_status
        if newStatus = "Running" then
          if currentStatus = "Queued" then
            ({ s with PrintJobs := s.PrintJobs.set job.id { job with status := newStatus } }, .ok)
          else (s, .err (invalidTransitionMsg currentStatus newStatus))
        else if newStatus = "Done" then
          if currentStatus = "Running" then
            let filament := (s.Filaments.find? job.filament_id).getD zeroFilament
            ({ s with
                Filaments := s.Filaments.set job.filament_id
                  { filament with weight_grams := filament.weight_grams - job.grams_needed },
                PrintJobs := s.PrintJobs.set job.id { job with status := newStatus } }, .ok)
          else (s, .err (invalidTransitionMsg currentStatus newStatus))
        else if newStatus = "Canceled" then
          if currentStatus = "Queued" ∨ currentStatus = "Running" then
            ({ s with PrintJobs := s.PrintJobs.set job.id { job with status := newStatus } }, .ok)
          else (s, .err (invalidTransitionMsg currentStatus newStatus))
        else (s, .err (invalidTransitionMsg currentStatus newStatus))
  | .unknown op => (s, .err (unrecognizedOpMsg op))

/-- Apply a whole committed command sequence in log order. -/
def applyList (s : FsmData) (cs : List Command) : FsmData :=
  cs.foldl (fun st c => (applyCmd st c).1) s

/-! ## Store façade and HTTP front end (store.go, server.go) -/

/-- An HTTP response as the handlers produce it: status code, body text, and
the `Location` header when one is set. -/
structure HttpResponse where
  status : Nat
  body : String
  location : Option String
deriving DecidableEq, Repr

/-- Go `http.Error(w, msg, code)`: writes the message followed by a newline. -/
def httpError (msg : String) (code : Nat) : HttpResponse :=
  ⟨code, msg ++ "\n", none⟩

/-- Outcome of the consensus library's apply future on the proposing leader:
either a consensus-layer error (timeout, no quorum), or the entry committed and
the FSM's `Apply` produced `fsmResult` (available as `future.Response()`). -/
inductive RaftOutcome where
  | raftError (msg : String)
  | committed (fsmResult : ApplyResult)
deriving DecidableEq, Repr

/-- `Store.Apply` as written in store.go (lines 97–106): its only return value
is the Go error (`none` = nil).  After `future.Error()` reports success it
returns nil without ever reading `future.Response()`, so the committed entry's
FSM apply result is discarded here. -/
def storeApply (isLeader : Bool) (outcome : RaftOutcome) : Option String :=
  if isLeader = false then some "not the leader, cannot apply command"
  else
    match outcome with
    | .raftError e => some ("failed to apply command: " ++ e)
    | .committed _ => none

/-- The leader branch of server.go's `handleAddPrintJob` (lines 185–194)
composed with `storeApply`: the handler maps a non-nil store error to
`500 Internal Server Error` and a nil one to `200 OK`.  Because `storeApply`
never surfaces the FSM result, the `resp.(error)` branch that server.go writes
for translating an FSM failure to 400 has nothing to observe. -/
def handleAddPrintJobOnLeader (outcome : RaftOutcome) : HttpResponse :=
  match storeApply true outcome with
  | some _ => httpError "Failed to apply command to raft" 500
  | none => ⟨200, "", none⟩

/-- Split at the last colon: `net.SplitHostPort` for the `host:port` shapes the
cluster uses (an address without a colon is a parse error). -/
def lastColonSplit : List Char → Option (List Char × List Char)
  | [] => none
  | c :: cs =>
    match lastColonSplit cs with
    | some (h, p) => some (c :: h, p)
    | none => if c = ':' then some ([], cs) else none

/-- `net.SplitHostPort` on the leader's raft-transport address. -/
def splitHostPort (addr : String) : Option (String × String) :=
  (lastColonSplit addr.data).map (fun hp => (⟨hp.1⟩, ⟨hp.2⟩))

/-- `strconv.Atoi` on the nonnegative decimal strings the cluster uses for
ports: the whole string must be decimal digits. -/
def atoiNat (s : String) : Option Nat :=
  if s.data ≠ [] ∧ s.data.all (fun c => 48 ≤ c.toNat && c.toNat ≤ 57)
  then some (s.data.foldl (fun n c => n * 10 + (c.toNat - 48)) 0)
  else none

/-- server.go `redirectToLeader` (lines 41–61): 503 when no leader is known,
otherwise parse `host:raftPort`, add 1000, and issue a 307 whose Location is
built by `fmt.Sprintf("http://%s:%d%s?%s", host, httpPort, path, rawQuery)`
(note the unconditional `?`); `http.Redirect` uses an absolute URL verbatim.
`strconv.Atoi` on the port is modelled by `atoiNat` (ports are unsigned). -/
def redirectToLeader (leaderRaftAddr path rawQuery : String) : HttpResponse :=
  if leaderRaftAddr = "" then httpError "No leader found" 503
  else
    match splitHostPort leaderRaftAddr with
    | none => httpError "Failed to parse leader address" 500
    | some (host, portStr) =>
      match atoiNat portStr with
      | none => httpError "Failed to parse leader port" 500
      | some raftPort =>
        let httpPort := raftPort + 1000
        ⟨307, "", some ("http://" ++ host ++ ":" ++ toString httpPort ++ path ++ "?" ++ rawQuery)⟩

/-! ## Snapshot, persist and restore (fsm.go lines 171–219)

`Persist` writes the state as one self-describing JSON document
`{"Printers":{...},"Filaments":{...},"PrintJobs":{...}}` via `encoding/json`;
`Restore` decodes it back.  The document is modelled character by character:
strings with quote/backslash escaping, and each `float64` weight as the exact
rational it denotes, rendered `numerator/denominator` (Go's shortest-decimal
float64 rendering is likewise exact and self-inverse, which is the property
the model keeps). -/

/-- JSON string-body escaping for the quote and backslash characters. -/
def escapeChars : List Char → List Char
  | [] => []
  | c :: cs =>
    if c = '"' ∨ c = '\\' then '\\' :: c :: escapeChars cs else c :: escapeChars cs

/-- A JSON string literal. -/
def encString (s : String) : List Char := '"' :: escapeChars s.data ++ ['"']

/-- Scan a string body up to its closing quote, undoing `escapeChars`. -/
def parseStrBody : List Char → Option (List Char × List Char)
  | [] => none
  | c :: cs =>
    if c = '\\' then
      match cs with
      | [] => none
      | d :: ds =>
        match parseStrBody ds with
        | some (s, rest) => some (d :: s, rest)
        | none => none
    else if c = '"' then some ([], cs)
    else
      match parseStrBody cs with
      | some (s, rest) => some (c :: s, rest)
      | none => none

/-- Parse a JSON string literal. -/
def parseString (input : List Char) : Option (String × List Char) :=
  match input with
  | [] => none
  | c :: cs =>
    if c = '"' then
      match parseStrBody cs with
      | some (s, rest) => some (⟨s⟩, rest)
      | none => none
    else none

/-- The decimal digit character for `d < 10`. -/
def digitChar (d : Nat) : Char := Char.ofNat (48 + d)

/-- The numeric value of a decimal digit character. -/
def digitVal (c : Char) : Nat := c.toNat - 48

/-- Is `c` one of `0`–`9`? -/
def isDigitChar (c : Char) : Bool := 48 ≤ c.toNat && c.toNat ≤ 57

/-- Split off the leading run of digit characters. -/
def takeDigits : List Char → List Char × List Char
  | [] => ([], [])
  | c :: cs =>
    if isDigitChar c then
      let p := takeDigits cs
      (c :: p.1, p.2)
    else ([], c :: cs)

/-- Decimal rendering of a natural number. -/
def encNat (n : Nat) : List Char :=
  if n = 0 then ['0'] else (Nat.digits 10 n).reverse.map digitChar

/-- Parse a nonempty run of decimal digits. -/
def parseNat (input : List Char) : Option (Nat × List Char) :=
  match takeDigits input with
  | ([], _) => none
  | (ds, rest) => some (Nat.ofDigits 10 ((ds.map digitVal).reverse), rest)

/-- Decimal rendering of an integer. -/
def encInt (i : Int) : List Char :=
  if i < 0 then '-' :: encNat i.natAbs else encNat i.natAbs

/-- Parse an optionally negated decimal integer. -/
def parseInt (input : List Char) : Option (Int × List Char) :=
  match input with
  | [] => none
  | c :: cs =>
    if c = '-' then
      match parseNat cs with
      | some (n, rest) => some (-(n : Int), rest)
      | none => none
    else
      match parseNat (c :: cs) with
      | some (n, rest) => some ((n : Int), rest)
      | none => none

/-- Exact rendering of a rational weight as `numerator/denominator`. -/
def encRat (q : Rat) : List Char := encInt q.num ++ '/' :: encNat q.den

/-- Parse a rational rendered by `encRat`. -/
def parseRat (input : List Char) : Option (Rat × List Char) :=
  match parseInt input with
  | none => none
  | some (num, r1) =>
    match r1 with
    | [] => none
    | c :: r2 =>
      if c = '/' then
        match parseNat r2 with
        | some (den, rest) => some (mkRat num den, rest)
        | none => none
      else none

/-- Consume one expected character. -/
def expectChar (c : Char) : List Char → Option (List Char)
  | [] => none
  | x :: xs => if x = c then some xs else none

/-- Consume an expected literal token. -/
def expectChars : List Char → List Char → Option (List Char)
  | [], input => some input
  | p :: ps, input =>
    match input with
    | [] => none
    | x :: xs => if x = p then expectChars ps xs else none

/-- Encode one `"key":` field label. -/
def encKey (key : String) : List Char := encString key ++ [':']

/-- Parse a `"key":` label, a string value, and the trailing separator `c`. -/
def parseKeyString (key : String) (c : Char) (input : List Char) :
    Option (String × List Char) :=
  (expectChars (encKey key) input).bind fun r1 =>
  (parseString r1).bind fun a =>
  (expectChar c a.2).bind fun r2 =>
  some (a.1, r2)

/-- Parse a `"key":` label, a rational value, and the trailing separator `c`. -/
def parseKeyRat (key : String) (c : Char) (input : List Char) :
    Option (Rat × List Char) :=
  (expectChars (encKey key) input).bind fun r1 =>
  (parseRat r1).bind fun a =>
  (expectChar c a.2).bind fun r2 =>
  some (a.1, r2)

/-- Encode a `Printer` as its JSON object (fields in Go declaration order). -/
def encPrinter (p : Printer) : List Char :=
  '\x7b' :: encKey "id" ++ encString p.id ++
  ',' :: encKey "name" ++ encString p.name ++ ['\x7d']

/-- Parse a `Printer` object. -/
def parsePrinter (input : List Char) : Option (Printer × List Char) :=
  (expectChar '\x7b' input).bind fun r0 =>
  (parseKeyString "id" ',' r0).bind fun a1 =>
  (parseKeyString "name" '\x7d' a1.2).bind fun a2 =>
  some (⟨a1.1, a2.1⟩, a2.2)

/-- Encode a `Filament` as its JSON object. -/
def encFilament (f : Filament) : List Char :=
  '\x7b' :: encKey "id" ++ encString f.id ++
  ',' :: encKey "type" ++ encString f.type ++
  ',' :: encKey "color" ++ encString f.color ++
  ',' :: encKey "weight_grams" ++ encRat f.weight_grams ++ ['\x7d']

/-- Parse a `Filament` object. -/
def parseFilament (input : List Char) : Option (Filament × List Char) :=
  (expectChar '\x7b' input).bind fun r0 =>
  (parseKeyString "id" ',' r0).bind fun a1 =>
  (parseKeyString "type" ',' a1.2).bind fun a2 =>
  (parseKeyString "color" ',' a2.2).bind fun a3 =>
  (parseKeyRat "weight_grams" '\x7d' a3.2).bind fun a4 =>
  some (⟨a1.1, a2.1, a3.1, a4.1⟩, a4.2)

/-- Encode a `PrintJob` as its JSON object. -/
def encPrintJob (j : PrintJob) : List Char :=
  '\x7b' :: encKey "id" ++ encString j.id ++
  ',' :: encKey "file_path" ++ encString j.file_path ++
  ',' :: encKey "grams_needed" ++ encRat j.grams_needed ++
  ',' :: encKey "printer_id" ++ encString j.printer_id ++
  ',' :: encKey "filament_id" ++ encString j.filament_id ++
  ',' :: encKey "status" ++ encString j.status ++ ['\x7d']

/-- Parse a `PrintJob` object. -/
def parsePrintJob (input : List Char) : Option (PrintJob × List Char) :=
  (expectChar '\x7b' input).bind fun r0 =>
  (parseKeyString "id" ',' r0).bind fun a1 =>
  (parseKeyString "file_path" ',' a1.2).bind fun a2 =>
  (parseKeyRat "grams_needed" ',' a2.2).bind fun a3 =>
  (parseKeyString "printer_id" ',' a3.2).bind fun a4 =>
  (parseKeyString "filament_id" ',' a4.2).bind fun a5 =>
  (parseKeyString "status" '\x7d' a5.2).bind fun a6 =>
  some (⟨a1.1, a2.1, a3.1, a4.1, a5.1, a6.1⟩, a6.2)

/-- Encode a map's entries as `"key":value` pairs separated by commas. -/
def encEntriesAux {V : Type} (encV : V → List Char) : StrMap V → List Char
  | [] => []
  | (k, v) :: rest =>
    encString k ++ ':' :: encV v ++
      (match rest with
       | [] => []
       | _ => ',' :: encEntriesAux encV rest)

/-- Encode a map as a JSON object. -/
def encMap {V : Type} (encV : V → List Char) (m : StrMap V) : List Char :=
  '\x7b' :: encEntriesAux encV m ++ ['\x7d']

/-- Parse one or more comma-separated `"key":value` entries; the fuel bounds
the number of entries (the caller passes the input length). -/
def parseEntries {V : Type} (parseV : List Char → Option (V × List Char)) :
    Nat → List Char → Option (StrMap V × List Char)
  | 0, _ => none
  | fuel + 1, input =>
    (parseString input).bind fun a1 =>
    (expectChar ':' a1.2).bind fun r2 =>
    (parseV r2).bind fun a2 =>
    match a2.2 with
    | [] => some ([(a1.1, a2.1)], [])
    | c :: r4 =>
      if c = ',' then
        match parseEntries parseV fuel r4 with
        | some (m, r5) => some ((a1.1, a2.1) :: m, r5)
        | none => none
      else some ([(a1.1, a2.1)], c :: r4)

/-- Parse a JSON object into a map. -/
def parseMap {V : Type} (parseV : List Char → Option (V × List Char))
    (input : List Char) : Option (StrMap V × List Char) :=
  match expectChar '\x7b' input with
  | none => none
  | some r1 =>
    match r1 with
    | [] => none
    | c :: r2 =>
      if c = '\x7d' then some ([], r2)
      else
        match parseEntries parseV r1.length r1 with
        | some (m, r3) =>
          match expectChar '\x7d' r3 with
          | some r4 => some (m, r4)
          | none => none
        | none => none

/-- Parse a `"key":` label, an object value via `pv`, and the separator `c`. -/
def parseKeyMap {V : Type} (key : String) (pv : List Char → Option (V × List Char))
    (c : Char) (input : List Char) : Option (StrMap V × List Char) :=
  (expectChars (encKey key) input).bind fun r1 =>
  (parseMap pv r1).bind fun a =>
  (expectChar c a.2).bind fun r2 =>
  some (a.1, r2)

/-- `fsmSnapshot.Persist`: the whole state as one JSON document. -/
def encodeFsmData (s : FsmData) : List Char :=
  '\x7b' :: encKey "Printers" ++ encMap encPrinter s.Printers ++
  ',' :: encKey "Filaments" ++ encMap encFilament s.Filaments ++
  ',' :: encKey "PrintJobs" ++ encMap encPrintJob s.PrintJobs ++ ['\x7d']

/-- Decode the snapshot document. -/
def parseFsmData (input : List Char) : Option (FsmData × List Char) :=
  (expectChar '\x7b' input).bind fun r0 =>
  (parseKeyMap "Printers" parsePrinter ',' r0).bind fun a1 =>
  (parseKeyMap "Filaments" parseFilament ',' a1.2).bind fun a2 =>
  (parseKeyMap "PrintJobs" parsePrintJob '\x7d' a2.2).bind fun a3 =>
  some (⟨a1.1, a2.1, a3.1⟩, a3.2)

/-- The per-entry clone loop of `fsm.Snapshot` (fsm.go lines 174–187). -/
def cloneMap {V : Type} (m : StrMap V) : StrMap V :=
  m.foldl (fun acc e => StrMap.set acc e.1 e.2) []

/-- `fsm.Snapshot`: a point-in-time clone of all three maps. -/
def takeSnapshot (s : FsmData) : FsmData :=
  ⟨cloneMap s.Printers, cloneMap s.Filaments, cloneMap s.PrintJobs⟩

/-- `fsmSnapshot.Persist`: serialize the cloned state to the sink. -/
def persistSnapshot (snap : FsmData) : String := ⟨encodeFsmData snap⟩

/-- `fsm.Restore`: decode a persisted snapshot and replace the state. -/
def restoreSnapshot (b : String) : Option FsmData :=
  match parseFsmData b.data with
  | some (d, []) => some d
  | _ => none

/-! ## Invariant machinery for the reservation and weight bounds -/

/-- Payload sanity of one command: client-supplied filament weights and job
gram requirements are nonnegative (other commands are unrestricted). -/
def cmdOK : Command → Bool
  | .add_filament f => decide (0 ≤ f.weight_grams)
  | .add_print_job j => decide (0 ≤ j.grams_needed)
  | _ => true

/-- The filament ids introduced by the `add_filament` commands of a sequence. -/
def filIds (cs : List Command) : List String :=
  cs.filterMap (fun c => match c with | .add_filament f => some f.id | _ => none)

/-- The inductive invariant of reachable well-behaved states: map keys agree
with the records' ids, filament keys are unique, job grams are nonnegative,
every job references an existing filament, and each filament's reserved sum is
bounded by its weight. -/
structure Inv (s : FsmData) : Prop where
  filKeys : ∀ e ∈ s.Filaments, e.1 = e.2.id
  filNodup : s.Filaments.NodupKeys
  jobKeys : ∀ e ∈ s.PrintJobs, e.1 = e.2.id
  jobNonneg : ∀ e ∈ s.PrintJobs, 0 ≤ e.2.grams_needed
  jobFil : ∀ e ∈ s.PrintJobs, (s.Filaments.find? e.2.filament_id).isSome
  reservedLe : ∀ e ∈ s.Filaments, reservedFor s.PrintJobs e.1 ≤ e.2.weight_grams

/-- Is the command an `update_job_status`? -/
def isUpdateCmd : Command → Bool
  | .update_job_status _ => true
  | _ => false

/-! ## Concrete fixtures for witnesses and counterexamples -/

/-- Scenario printer `p1`. -/
def pW : Printer := ⟨"p1", "Ender 3 Pro"⟩

/-- Scenario filament `f1` with 1000 g. -/
def fW : Filament := ⟨"f1", "PLA", "Blue", 1000⟩

/-- Scenario job `job1` needing 50 g of `f1`. -/
def jobW : PrintJob := ⟨"job1", "/models/boat.gcode", 50, "p1", "f1", ""⟩

/-- Scenario job `job2` needing 970 g of `f1`. -/
def job2W : PrintJob := ⟨"job2", "/models/x.gcode", 970, "p1", "f1", ""⟩

/-- A well-behaved bootstrap sequence: printer, filament, one 50 g job. -/
def csGood : List Command := [.add_printer pW, .add_filament fW, .add_print_job jobW]

/-- `f1` re-registered with only 10 g left on the spool. -/
def fOverwrite : Filament := ⟨"f1", "PLA", "Red", 10⟩

/-- Command sequence that overwrites `f1` under an existing 50 g reservation. -/
def csC1cex : List Command := csGood ++ [.add_filament fOverwrite]

/-- A filament registered with negative weight. -/
def fNeg : Filament := ⟨"f2", "PLA", "Black", -5⟩

/-- Command sequence registering a negative-weight filament. -/
def csC7cex : List Command := [.add_filament fNeg]

/-- Bootstrap sequence followed by a full Running → Done cycle of `job1`. -/
def csC7wit : List Command :=
  csGood ++ [.update_job_status ⟨"job1", "Running"⟩, .update_job_status ⟨"job1", "Done"⟩]

/-- A job referencing a printer id that was never registered. -/
def jC2 : PrintJob := ⟨"jobx", "/m.gcode", 10, "p9", "f1", ""⟩

/-- State after `csGood` followed by moving `job1` to Canceled. -/
def csC4 : List Command := csGood ++ [.update_job_status ⟨"job1", "Canceled"⟩]

/-- `job1` as stored after Queued → Canceled. -/
def jobC4 : PrintJob := ⟨"job1", "/models/boat.gcode", 50, "p1", "f1", "Canceled"⟩

/-- State holding `job1` in status Running (for the Running → Done effect). -/
def sC5 : FsmData :=
  ⟨[("p1", pW)], [("f1", fW)],
   [("job1", ⟨"job1", "/models/boat.gcode", 50, "p1", "f1", "Running"⟩)]⟩

/-- `job1` in status Running. -/
def jobC5 : PrintJob := ⟨"job1", "/models/boat.gcode", 50, "p1", "f1", "Running"⟩

/-- State holding `job1` queued against `f1` (for admission checks). -/
def sC3 : FsmData :=
  ⟨[("p1", pW)], [("f1", fW)],
   [("job1", ⟨"job1", "/models/boat.gcode", 50, "p1", "f1", "Queued"⟩)]⟩

/-- Replacement payload reusing the id `job1` and needing 900 g. -/
def jC9 : PrintJob := ⟨"job1", "/models/big.gcode", 900, "p1", "f1", "Done"⟩

/-- A Running job whose filament id is absent from the Filaments map. -/
def jobGhost : PrintJob := ⟨"jobz", "/models/g.gcode", 70, "p1", "ghost", "Running"⟩

/-- State holding `jobGhost` but no filament `ghost`. -/
def sC10 : FsmData := ⟨[("p1", pW)], [], [("jobz", jobGhost)]⟩

/-- Sample state for the snapshot round-trip witness. -/
def sSnap : FsmData :=
  ⟨[("p1", pW)], [("f1", fW)],
   [("job1", ⟨"job1", "/models/boat.gcode", 50, "p1", "f1", "Queued"⟩)]⟩

/-! ## Map lemmas -/

theorem StrMap.find?_set_self {V : Type} (m : StrMap V) (k : String) (v : V) :
    (StrMap.set m k v).find? k = some v := by
  induction m with
  | nil => simp [StrMap.set, StrMap.find?]
  | cons e rest ih =>
      by_cases h : e.1 = k
      · simp [StrMap.set, h, StrMap.find?]
      · simp [StrMap.set, h, StrMap.find?, ih]

theorem StrMap.find?_set_ne {V : Type} (m : StrMap V) (k k2 : String) (v : V)
    (h : k2 ≠ k) : (StrMap.set m k v).find? k2 = m.find? k2 := by
  have hne : ¬(k = k2) := fun hh => h hh.symm
  induction m with
  | nil => simp [StrMap.set, StrMap.find?, hne]
  | cons e rest ih =>
      by_cases he : e.1 = k
      · subst he
        simp [StrMap.set, StrMap.find?, hne]
      · by_cases he2 : e.1 = k2 <;>
          simp [StrMap.set, StrMap.find?, he, he2, ih, h, hne]

theorem StrMap.set_eq_append {V : Type} (m : StrMap V) (k : String) (v : V)
    (h : m.find? k = none) : StrMap.set m k v = m ++ [(k, v)] := by
  induction m with
  | nil => simp [StrMap.set]
  | cons e rest ih =>
      by_cases he : e.1 = k
      · simp [StrMap.find?, he] at h
      · simp [StrMap.find?, he] at h
        simp [StrMap.set, he, ih h]

theorem StrMap.mem_set {V : Type} (m : StrMap V) (k : String) (v : V)
    (e : String × V) (he : e ∈ StrMap.set m k v) : e = (k, v) ∨ e ∈ m := by
  induction m with
  | nil => simpa [StrMap.set] using he
  | cons e2 rest ih =>
      by_cases h2 : e2.1 = k
      · simp only [StrMap.set, h2, if_pos, List.mem_cons] at he
        rcases he with he | he
        · exact Or.inl he
        · exact Or.inr (List.mem_cons_of_mem _ he)
      · simp only [StrMap.set, h2, if_neg, not_false_iff, List.mem_cons] at he
        rcases he with he | he
        · exact Or.inr (by simp [he])
        · rcases ih he with h | h
          · exact Or.inl h
          · exact Or.inr (List.mem_cons_of_mem _ h)

theorem StrMap.find?_mem {V : Type} (m : StrMap V) (k : String) (v : V)
    (h : m.find? k = some v) : (k, v) ∈ m := by
  induction m with
  | nil => simp [StrMap.find?] at h
  | cons e rest ih =>
      by_cases he : e.1 = k
      · simp only [StrMap.find?, he, if_pos] at h
        have hev : e = (k, v) := by
          cases e
          simp_all
        rw [← hev]
        exact List.mem_cons_self _ _
      · simp only [StrMap.find?, he, if_neg, not_false_iff] at h
        exact List.mem_cons_of_mem _ (ih h)

theorem StrMap.find?_eq_none_iff {V : Type} (m : StrMap V) (k : String) :
    m.find? k = none ↔ k ∉ m.map Prod.fst := by
  induction m with
  | nil => simp [StrMap.find?]
  | cons e rest ih =>
      by_cases he : e.1 = k
      · simp [StrMap.find?, he]
      · have hne : ¬(k = e.1) := fun hh => he hh.symm
        simp [StrMap.find?, he, ih, hne]

theorem StrMap.keys_set {V : Type} (m : StrMap V) (k : String) (v : V) :
    ((StrMap.set m k v).map Prod.fst) = if k ∈ m.map Prod.fst then m.map Prod.fst
      else m.map Prod.fst ++ [k] := by
  induction m with
  | nil => simp [StrMap.set]
  | cons e rest ih =>
      by_cases he : e.1 = k
      · simp [StrMap.set, he]
      · have hne : ¬(k = e.1) := fun hh => he hh.symm
        simp only [StrMap.set, he, if_neg, not_false_iff, List.map_cons, ih]
        by_cases hk : k ∈ rest.map Prod.fst <;> simp [hk, hne]

theorem StrMap.nodup_set {V : Type} (m : StrMap V) (k : String) (v : V)
    (h : m.NodupKeys) : (StrMap.set m k v).NodupKeys := by
  unfold StrMap.NodupKeys at h ⊢
  rw [StrMap.keys_set]
  by_cases hk : k ∈ m.map Prod.fst
  · simpa [hk]
  · simpa [hk, List.nodup_append] using h

theorem StrMap.nodup_find?_of_mem {V : Type} (m : StrMap V) (e : String × V)
    (hnd : m.NodupKeys) (he : e ∈ m) : m.find? e.1 = some e.2 := by
  induction m with
  | nil => simp at he
  | cons e2 rest ih =>
      unfold StrMap.NodupKeys at hnd
      simp only [List.map_cons, List.nodup_cons] at hnd
      rcases List.mem_cons.mp he with h | h
      · subst h
        simp [StrMap.find?]
      · have hne : e2.1 ≠ e.1 := by
          intro hh
          exact hnd.1 (hh ▸ (List.mem_map.mpr ⟨e, h, rfl⟩))
        simp only [StrMap.find?, hne, if_neg, not_false_iff]
        exact ih hnd.2 h

theorem StrMap.find?_isSome_set {V : Type} (m : StrMap V) (k k2 : String) (v : V)
    (h : (m.find? k2).isSome) : ((StrMap.set m k v).find? k2).isSome := by
  by_cases hk : k2 = k
  · subst hk
    simp [StrMap.find?_set_self]
  · rwa [StrMap.find?_set_ne m k k2 v hk]

/-! ## Reservation-sum lemmas -/

theorem contrib_nonneg (fid : String) (j : PrintJob) (h : 0 ≤ j.grams_needed) :
    0 ≤ contrib fid j := by
  unfold contrib
  split <;> simp [h]

theorem reservedFor_nonneg (m : StrMap PrintJob) (fid : String)
    (h : ∀ e ∈ m, 0 ≤ e.2.grams_needed) : 0 ≤ reservedFor m fid := by
  unfold reservedFor
  apply List.sum_nonneg
  intro x hx
  rcases List.mem_map.mp hx with ⟨e, he, rfl⟩
  exact contrib_nonneg fid e.2 (h e he)

theorem reservedFor_append (m : StrMap PrintJob) (k : String) (j : PrintJob)
    (fid : String) :
    reservedFor (m ++ [(k, j)]) fid = reservedFor m fid + contrib fid j := by
  simp [reservedFor]

theorem reservedFor_set (m : StrMap PrintJob) (k : String) (jold jnew : PrintJob)
    (fid : String) (h : m.find? k = some jold) :
    reservedFor (StrMap.set m k jnew) fid
      = reservedFor m fid - contrib fid jold + contrib fid jnew := by
  induction m with
  | nil => simp [StrMap.find?] at h
  | cons e rest ih =>
      by_cases he : e.1 = k
      · simp only [StrMap.find?, he, if_pos] at h
        have hj : e.2 = jold := by injection h
        subst hj
        subst he
        simp only [StrMap.set, if_pos]
        simp only [reservedFor, List.map_cons, List.sum_cons]
        ring
      · simp only [StrMap.find?, he, if_neg, not_false_iff] at h
        simp only [StrMap.set, he, if_neg, not_false_iff]
        simp only [reservedFor, List.map_cons, List.sum_cons] at ih ⊢
        rw [ih h]
        ring

theorem reservedFor_erase (m : StrMap PrintJob) (k : String) (jold : PrintJob)
    (fid : String) (h : m.find? k = some jold) :
    reservedFor m fid = contrib fid jold + reservedFor (m.eraseKey k) fid := by
  induction m with
  | nil => simp [StrMap.find?] at h
  | cons e rest ih =>
      by_cases he : e.1 = k
      · simp only [StrMap.find?, he, if_pos] at h
        have hj : e.2 = jold := by injection h
        subst hj
        subst he
        simp only [StrMap.eraseKey, if_pos]
        simp [reservedFor]
      · simp only [StrMap.find?, he, if_neg, not_false_iff] at h
        simp only [StrMap.eraseKey, he, if_neg, not_false_iff]
        simp only [reservedFor, List.map_cons, List.sum_cons] at ih ⊢
        rw [ih h]
        ring

theorem reservedFor_eq_zero (m : StrMap PrintJob) (fid : String)
    (h : ∀ e ∈ m, e.2.filament_id ≠ fid) : reservedFor m fid = 0 := by
  unfold reservedFor
  apply List.sum_eq_zero
  intro x hx
  rcases List.mem_map.mp hx with ⟨e, he, rfl⟩
  simp [contrib, h e he]

/-! ## Claim theorems: FSM command semantics -/

/-- C3.  `add_print_job` checks, in order: unknown printer id fails with the
printer-not-found message; then unknown filament id fails with the
filament-not-found message; then, with `available = weight_grams − reserved`,
it fails with the insufficient-filament message (carrying required, available,
total and reserved grams) exactly when `available < grams_needed`; otherwise it
stores the job with its status forced to `"Queued"` (whatever status the
client supplied) and succeeds. -/
theorem C3_add_print_job_cases (s : FsmData) (j : PrintJob) :
    (s.Printers.find? j.printer_id = none →
      applyCmd s (.add_print_job j) = (s, .err (printerNotFoundMsg j.printer_id)))
    ∧ (∀ p, s.Printers.find? j.printer_id = some p →
        s.Filaments.find? j.filament_id = none →
        applyCmd s (.add_print_job j) = (s, .err (filamentNotFoundMsg j.filament_id)))
    ∧ (∀ p fil, s.Printers.find? j.printer_id = some p →
        s.Filaments.find? j.filament_id = some fil →
        fil.weight_grams - reservedFor s.PrintJobs j.filament_id < j.grams_needed →
        applyCmd s (.add_print_job j) =
          (s, .err (insufficientMsg j.grams_needed
            (fil.weight_grams - reservedFor s.PrintJobs j.filament_id)
            fil.weight_grams (reservedFor s.PrintJobs j.filament_id))))
    ∧ (∀ p fil, s.Printers.find? j.printer_id = some p →
        s.Filaments.find? j.filament_id = some fil →
        ¬(fil.weight_grams - reservedFor s.PrintJobs j.filament_id < j.grams_needed) →
        applyCmd s (.add_print_job j) =
          ({ s with PrintJobs := s.PrintJobs.set j.id { j with status := "Queued" } }, .ok)) := by
  refine ⟨fun hp => ?_, fun p hp hf => ?_, fun p fil hp hf hlt => ?_,
    fun p fil hp hf hge => ?_⟩
  · simp [applyCmd, hp]
  · simp [applyCmd, hp, hf]
  · simp [applyCmd, hp, hf, hlt]
  · simp [applyCmd, hp, hf, hge]

/-- Witness for C3: scenario S3 — with `f1` holding 1000 g and `job1` (50 g,
Queued) stored, submitting `job2` needing 970 g fails with the exact
insufficient-filament message. -/
theorem C3_add_print_job_cases_witness :
    applyCmd sC3 (.add_print_job job2W) =
      (sC3, .err (insufficientMsg job2W.grams_needed
        (fW.weight_grams - reservedFor sC3.PrintJobs job2W.filament_id)
        fW.weight_grams (reservedFor sC3.PrintJobs job2W.filament_id)))
    ∧ insufficientMsg 970 950 1000 50 =
        "insufficient filament: required 970.00g, available 950.00g (1000.00g total - 50.00g reserved)" :=
  ⟨(C3_add_print_job_cases sC3 job2W).2.2.1 pW fW (by decide) (by decide)
    (by norm_num [sC3, fW, job2W, jobW, reservedFor, contrib]),
   by decide⟩

/-- C10.  Moving a Running job to Done when its `filament_id` is absent from
the Filaments map does not fail: the Go map read yields the zero-value
filament, so a fresh entry is created under that id with empty id, type and
color and weight `0 − grams_needed`, and the job is still marked Done. -/
theorem C10_done_with_missing_filament (s : FsmData) (u : UpdateJobStatusData)
    (job : PrintJob)
    (hj : s.PrintJobs.find? u.job_id = some job)
    (hrun : job.status = "Running") (hdone : u.new_status = "Done")
    (hmiss : s.Filaments.find? job.filament_id = none) :
    applyCmd s (.update_job_status u) =
      ({ s with
          Filaments := s.Filaments.set job.filament_id
            ⟨"", "", "", 0 - job.grams_needed⟩,
          PrintJobs := s.PrintJobs.set job.id { job with status := "Done" } }, .ok) := by
  cases u with
  | mk jid ns =>
      simp only at hdone
      subst hdone
      simp [applyCmd, hj, hrun, hmiss, zeroFilament]

/-- Witness for C10: the Running job `jobz` references the absent filament
`ghost`; Done succeeds and creates `ghost ↦ ⟨"", "", "", −70⟩`. -/
theorem C10_done_with_missing_filament_witness :
    applyCmd sC10 (.update_job_status ⟨"jobz", "Done"⟩) =
      ({ sC10 with
          Filaments := sC10.Filaments.set "ghost" ⟨"", "", "", 0 - (70 : Rat)⟩,
          PrintJobs := sC10.PrintJobs.set "jobz" { jobGhost with status := "Done" } }, .ok) :=
  C10_done_with_missing_filament sC10 ⟨"jobz", "Done"⟩ jobGhost
    (by decide) (by decide) (by decide) (by decide)

/-- C5.  A successful Running → Done subtracts the job's `grams_needed`
exactly once from the referenced filament (the successor state differs from
`s` only in that filament entry and the job's status); every other successful
transition (Queued → Running, Queued → Canceled, Running → Canceled) leaves
`Filaments` — hence every filament's `weight_grams` — and `Printers`
untouched, and rewrites only the entry at the job's own id. -/
theorem C5_update_status_effects (s : FsmData) (j : PrintJob)
    (hj : s.PrintJobs.find? j.id = some j) :
    (∀ fil, j.status = "Running" → s.Filaments.find? j.filament_id = some fil →
      applyCmd s (.update_job_status ⟨j.id, "Done"⟩) =
        ({ s with
            Filaments := s.Filaments.set j.filament_id
              { fil with weight_grams := fil.weight_grams - j.grams_needed },
            PrintJobs := s.PrintJobs.set j.id { j with status := "Done" } }, .ok))
    ∧ (∀ ns, (j.status = "Queued" ∧ (ns = "Running" ∨ ns = "Canceled")) ∨
          (j.status = "Running" ∧ ns = "Canceled") →
        applyCmd s (.update_job_status ⟨j.id, ns⟩) =
          ({ s with PrintJobs := s.PrintJobs.set j.id { j with status := ns } }, .ok)) := by
  constructor
  · intro fil hrun hfil
    simp [applyCmd, hj, hrun, hfil]
  · intro ns hcase
    rcases hcase with ⟨hq, hns⟩ | ⟨hr, hns⟩
    · rcases hns with hns | hns <;> subst hns <;> simp [applyCmd, hj, hq]
    · subst hns
      simp [applyCmd, hj, hr]

/-- Witness for C5: `job1` Running with `f1` at 1000 g; Done leaves
`f1 ↦ 950` and only `job1` rewritten. -/
theorem C5_update_status_effects_witness :
    applyCmd sC5 (.update_job_status ⟨"job1", "Done"⟩) =
      ({ sC5 with
          Filaments := sC5.Filaments.set "f1"
            { fW with weight_grams := fW.weight_grams - jobC5.grams_needed },
          PrintJobs := sC5.PrintJobs.set "job1" { jobC5 with status := "Done" } }, .ok) :=
  (C5_update_status_effects sC5 jobC5 (by decide)).1 fW (by decide) (by decide)

/-- C9.  `add_print_job` with an id already in `PrintJobs` never fails on the
duplicate id: the outcome is decided by the admission check alone, the stored
job is replaced, and — when the existing job under that id is Queued or
Running against the same filament — its grams are part of the reserved sum the
check uses, so the replacement must fit old and new reservations together. -/
theorem C9_duplicate_id_replaces (s : FsmData) (j old : PrintJob) (p : Printer)
    (fil : Filament)
    (hp : s.Printers.find? j.printer_id = some p)
    (hf : s.Filaments.find? j.filament_id = some fil)
    (hold : s.PrintJobs.find? j.id = some old)
    (holdfid : old.filament_id = j.filament_id)
    (holdstat : old.status = "Queued" ∨ old.status = "Running") :
    reservedFor s.PrintJobs j.filament_id
      = old.grams_needed + reservedFor (s.PrintJobs.eraseKey j.id) j.filament_id
    ∧ (fil.weight_grams - reservedFor s.PrintJobs j.filament_id < j.grams_needed →
        applyCmd s (.add_print_job j) =
          (s, .err (insufficientMsg j.grams_needed
            (fil.weight_grams - reservedFor s.PrintJobs j.filament_id)
            fil.weight_grams (reservedFor s.PrintJobs j.filament_id))))
    ∧ (¬(fil.weight_grams - reservedFor s.PrintJobs j.filament_id < j.grams_needed) →
        applyCmd s (.add_print_job j) =
          ({ s with PrintJobs := s.PrintJobs.set j.id { j with status := "Queued" } }, .ok)) := by
  refine ⟨?_, fun hlt => by simp [applyCmd, hp, hf, hlt],
    fun hge => by simp [applyCmd, hp, hf, hge]⟩
  rw [reservedFor_erase s.PrintJobs j.id old j.filament_id hold]
  rcases holdstat with h | h <;> simp [contrib, holdfid, h]

/-- Witness for C9: replacing the queued 50 g `job1` by a 900 g `job1` against
the 1000 g spool succeeds (950 g available covers it), and the reserved sum
the check used contains the old 50 g. -/
theorem C9_duplicate_id_replaces_witness :
    reservedFor sC3.PrintJobs "f1"
      = (50 : Rat) + reservedFor (sC3.PrintJobs.eraseKey "job1") "f1"
    ∧ applyCmd sC3 (.add_print_job jC9) =
        ({ sC3 with PrintJobs := sC3.PrintJobs.set "job1" { jC9 with status := "Queued" } }, .ok) :=
  ⟨(C9_duplicate_id_replaces sC3 jC9 ⟨"job1", "/models/boat.gcode", 50, "p1", "f1", "Queued"⟩
      pW fW (by decide) (by decide) (by decide) (by decide) (Or.inl (by decide))).1,
   (C9_duplicate_id_replaces sC3 jC9 ⟨"job1", "/models/boat.gcode", 50, "p1", "f1", "Queued"⟩
      pW fW (by decide) (by decide) (by decide) (by decide) (Or.inl (by decide))).2.2
     (by norm_num [sC3, fW, jC9, jobW, reservedFor, contrib])⟩

/-- A job in a terminal status rejects every `update_job_status` with the
invalid-transition message and leaves the whole state unchanged. -/
theorem applyCmd_update_terminal (s : FsmData) (jid ns : String) (j : PrintJob)
    (hj : s.PrintJobs.find? jid = some j)
    (hterm : j.status = "Done" ∨ j.status = "Canceled") :
    applyCmd s (.update_job_status ⟨jid, ns⟩) =
      (s, .err (invalidTransitionMsg j.status ns)) := by
  rcases hterm with h | h <;>
  · simp only [applyCmd, hj]
    by_cases h1 : ns = "Running" <;> by_cases h2 : ns = "Done" <;>
      by_cases h3 : ns = "Canceled" <;>
      simp [h1, h2, h3, h]

/-- Every job entry a command writes is stored under the record's own id. -/
theorem applyCmd_jobs_shape (s : FsmData) (c : Command) (e : String × PrintJob)
    (he : e ∈ ((applyCmd s c).1).PrintJobs) : e ∈ s.PrintJobs ∨ e.1 = e.2.id := by
  cases c with
  | add_printer p => exact Or.inl (by simpa [applyCmd] using he)
  | add_filament f => exact Or.inl (by simpa [applyCmd] using he)
  | unknown op => exact Or.inl (by simpa [applyCmd] using he)
  | add_print_job j =>
      simp only [applyCmd] at he
      repeat' split at he
      all_goals
        first
        | exact Or.inl he
        | rcases StrMap.mem_set _ _ _ _ he with h | h
          · right
            rw [h]
          · exact Or.inl h
  | update_job_status u =>
      simp only [applyCmd] at he
      repeat' split at he
      all_goals
        first
        | exact Or.inl he
        | rcases StrMap.mem_set _ _ _ _ he with h | h
          · right
            rw [h]
          · exact Or.inl h

/-- In every state reached from the empty state, job map keys equal the stored
records' ids. -/
theorem jobKeys_applyList (cs : List Command) :
    ∀ e ∈ (applyList initialState cs).PrintJobs, e.1 = e.2.id := by
  suffices h : ∀ s, (∀ e ∈ s.PrintJobs, e.1 = e.2.id) →
      ∀ e ∈ (applyList s cs).PrintJobs, e.1 = e.2.id by
    exact h initialState (by simp [initialState])
  induction cs with
  | nil =>
      intro s hs
      simpa [applyList] using hs
  | cons c rest ih =>
      intro s hs
      have h1 : ∀ e ∈ (applyCmd s c).1.PrintJobs, e.1 = e.2.id := fun e he =>
        (applyCmd_jobs_shape s c e he).elim (fun h => hs e h) id
      have : applyList s (c :: rest) = applyList (applyCmd s c).1 rest := by
        simp [applyList]
      rw [this]
      exact ih _ h1

/-- Under a sequence of `update_job_status` commands, a terminal job's entry
never changes (keys agreeing with record ids). -/
theorem find?_applyList_updates (cs : List Command) :
    ∀ (s : FsmData) (jid : String) (j : PrintJob),
    (∀ e ∈ s.PrintJobs, e.1 = e.2.id) →
    s.PrintJobs.find? jid = some j →
    (j.status = "Done" ∨ j.status = "Canceled") →
    (∀ c ∈ cs, isUpdateCmd c = true) →
    (applyList s cs).PrintJobs.find? jid = some j := by
  induction cs with
  | nil =>
      intro s jid j _ hj _ _
      simpa [applyList] using hj
  | cons c rest ih =>
      intro s jid j hkeys hj hterm hall
      have hc := hall c (List.mem_cons_self c rest)
      cases c with
      | add_printer p => simp [isUpdateCmd] at hc
      | add_filament f => simp [isUpdateCmd] at hc
      | add_print_job j2 => simp [isUpdateCmd] at hc
      | unknown op => simp [isUpdateCmd] at hc
      | update_job_status u =>
          have hkeys2 : ∀ e ∈ (applyCmd s (.update_job_status u)).1.PrintJobs, e.1 = e.2.id :=
            fun e he =>
              (applyCmd_jobs_shape s (.update_job_status u) e he).elim (fun h => hkeys e h) id
          have hstep : (applyCmd s (.update_job_status u)).1.PrintJobs.find? jid = some j := by
            cases u with
            | mk id2 ns2 =>
                by_cases hid : id2 = jid
                · subst hid
                  rw [applyCmd_update_terminal s id2 ns2 j hj hterm]
                  exact hj
                · cases hj2 : s.PrintJobs.find? id2 with
                  | none => simpa [applyCmd, hj2] using hj
                  | some job2 =>
                      have hjid2 : job2.id = id2 :=
                        (hkeys (id2, job2) (StrMap.find?_mem _ _ _ hj2)).symm
                      have hne : jid ≠ job2.id := fun hh => hid (hjid2 ▸ hh.symm)
                      simp only [applyCmd, hj2]
                      repeat' split
                      all_goals
                        first
                        | exact hj
                        | exact (StrMap.find?_set_ne _ _ _ _ hne).trans hj
          have hrw : applyList s (Command.update_job_status u :: rest)
              = applyList (applyCmd s (.update_job_status u)).1 rest := by
            simp [applyList]
          rw [hrw]
          exact ih _ jid j hkeys2 hstep hterm
            (fun c2 h2 => hall c2 (List.mem_cons_of_mem _ h2))

/-- C4.  Once a job is `Done` or `Canceled` in any state reached from the
empty state, every `update_job_status` aimed at it — any new status string,
self-loops and backward moves included — fails with the exact
invalid-transition message and leaves the state unchanged, and over any
further sequence of `update_job_status` commands the stored job never
changes. -/
theorem C4_terminal_states_frozen (cs0 : List Command) (s : FsmData)
    (jid : String) (j : PrintJob)
    (hs : s = applyList initialState cs0)
    (hj : s.PrintJobs.find? jid = some j)
    (hterm : j.status = "Done" ∨ j.status = "Canceled") :
    (∀ ns, applyCmd s (.update_job_status ⟨jid, ns⟩) =
        (s, .err (invalidTransitionMsg j.status ns)))
    ∧ (∀ cs, (∀ c ∈ cs, isUpdateCmd c = true) →
        (applyList s cs).PrintJobs.find? jid = some j) := by
  have hkeys : ∀ e ∈ s.PrintJobs, e.1 = e.2.id := by
    subst hs
    exact jobKeys_applyList cs0
  exact ⟨fun ns => applyCmd_update_terminal s jid ns j hj hterm,
    fun cs hall => find?_applyList_updates cs s jid j hkeys hj hterm hall⟩

/-- Witness for C4: after creating `job1` and canceling it, a retry to
`Running` fails with the exact message and a further `Done` attempt leaves the
stored job intact. -/
theorem C4_terminal_states_frozen_witness :
    (applyCmd (applyList initialState csC4) (.update_job_status ⟨"job1", "Running"⟩) =
      (applyList initialState csC4,
        .err (invalidTransitionMsg "Canceled" "Running")))
    ∧ (applyList (applyList initialState csC4)
        [.update_job_status ⟨"job1", "Done"⟩]).PrintJobs.find? "job1" = some jobC4 :=
  ⟨(C4_terminal_states_frozen csC4 (applyList initialState csC4) "job1" jobC4 rfl
      (by norm_num [csC4, csGood, pW, fW, jobW, jobC4, applyList, applyCmd,
        StrMap.set, StrMap.find?, reservedFor, contrib, initialState])
      (Or.inr rfl)).1 "Running",
   (C4_terminal_states_frozen csC4 (applyList initialState csC4) "job1" jobC4 rfl
      (by norm_num [csC4, csGood, pW, fW, jobW, jobC4, applyList, applyCmd,
        StrMap.set, StrMap.find?, reservedFor, contrib, initialState])
      (Or.inr rfl)).2 [.update_job_status ⟨"job1", "Done"⟩] (by decide)⟩

/-! ## Preservation of the reservation invariant -/

/-- A job moved to a terminal status contributes nothing to any reserved sum. -/
theorem contrib_terminal (fid : String) (j : PrintJob) (ns : String)
    (hns : ns = "Done" ∨ ns = "Canceled") :
    contrib fid { j with status := ns } = 0 := by
  rcases hns with h | h <;> subst h <;> simp [contrib]

/-- Swapping between the two active statuses keeps the contribution. -/
theorem contrib_active_swap (fid : String) (j : PrintJob) (ns : String)
    (hj : j.status = "Queued" ∨ j.status = "Running")
    (hns : ns = "Queued" ∨ ns = "Running") :
    contrib fid { j with status := ns } = contrib fid j := by
  rcases hj with h | h <;> rcases hns with h2 | h2 <;> subst h2 <;>
    simp [contrib, h]

/-- The empty state satisfies the invariant. -/
theorem inv_initial : Inv initialState := by
  constructor <;> simp [initialState, StrMap.NodupKeys]

/-- One-step preservation of `Inv`: under nonnegative client payloads and a
fresh id for `add_filament`, every command preserves the invariant, and the
filament key set grows only by the freshly added id. -/
theorem inv_applyCmd (s : FsmData) (c : Command) (hInv : Inv s)
    (hok : cmdOK c = true)
    (hfresh : ∀ f, c = .add_filament f → s.Filaments.find? f.id = none) :
    Inv (applyCmd s c).1
    ∧ (∀ k, ((applyCmd s c).1).Filaments.find? k ≠ none →
        s.Filaments.find? k ≠ none ∨ ∃ f, c = .add_filament f ∧ k = f.id) := by
  obtain ⟨hfilKeys, hfilNodup, hjobKeys, hjobNonneg, hjobFil, hreservedLe⟩ := hInv
  cases c with
  | add_printer p =>
      exact ⟨⟨hfilKeys, hfilNodup, hjobKeys, hjobNonneg, hjobFil, hreservedLe⟩,
        fun k hk => Or.inl hk⟩
  | unknown op =>
      exact ⟨⟨hfilKeys, hfilNodup, hjobKeys, hjobNonneg, hjobFil, hreservedLe⟩,
        fun k hk => Or.inl hk⟩
  | add_filament f =>
      have hf : s.Filaments.find? f.id = none := hfresh f rfl
      have hwt : (0 : Rat) ≤ f.weight_grams := by simpa [cmdOK] using hok
      have hset : StrMap.set s.Filaments f.id f = s.Filaments ++ [(f.id, f)] :=
        StrMap.set_eq_append _ _ _ hf
      have hmem : f.id ∉ s.Filaments.map Prod.fst := (StrMap.find?_eq_none_iff _ _).mp hf
      dsimp only [applyCmd]
      constructor
      · refine ⟨?_, ?_, hjobKeys, hjobNonneg, ?_, ?_⟩
        · intro e he
          rw [hset] at he
          rcases List.mem_append.mp he with h | h
          · exact hfilKeys e h
          · rw [List.mem_singleton] at h
            subst h
            rfl
        · show ((StrMap.set s.Filaments f.id f).map Prod.fst).Nodup
          rw [StrMap.keys_set, if_neg hmem]
          have hnd : (s.Filaments.map Prod.fst).Nodup := hfilNodup
          simp [List.nodup_append, hnd, hmem]
        · intro e he
          exact StrMap.find?_isSome_set _ _ _ _ (hjobFil e he)
        · intro e he
          rw [hset] at he
          rcases List.mem_append.mp he with h | h
          · exact hreservedLe e h
          · rw [List.mem_singleton] at h
            subst h
            have hz : reservedFor s.PrintJobs f.id = 0 := by
              apply reservedFor_eq_zero
              intro e2 he2 heq
              have hsome := hjobFil e2 he2
              rw [heq, hf] at hsome
              simp at hsome
            show reservedFor s.PrintJobs f.id ≤ f.weight_grams
            rw [hz]
            exact hwt
      · intro k hk
        by_cases hkf : k = f.id
        · exact Or.inr ⟨f, rfl, hkf⟩
        · left
          rwa [StrMap.find?_set_ne _ _ _ _ hkf] at hk
  | add_print_job j =>
      have hg : (0 : Rat) ≤ j.grams_needed := by simpa [cmdOK] using hok
      cases hp : s.Printers.find? j.printer_id with
      | none =>
          simp only [applyCmd, hp]
          exact ⟨⟨hfilKeys, hfilNodup, hjobKeys, hjobNonneg, hjobFil, hreservedLe⟩,
            fun k hk => Or.inl hk⟩
      | some p =>
          cases hfil : s.Filaments.find? j.filament_id with
          | none =>
              simp only [applyCmd, hp, hfil]
              exact ⟨⟨hfilKeys, hfilNodup, hjobKeys, hjobNonneg, hjobFil, hreservedLe⟩,
                fun k hk => Or.inl hk⟩
          | some fil =>
              by_cases hlt : fil.weight_grams - reservedFor s.PrintJobs j.filament_id
                  < j.grams_needed
              · simp only [applyCmd, hp, hfil, if_pos hlt]
                exact ⟨⟨hfilKeys, hfilNodup, hjobKeys, hjobNonneg, hjobFil, hreservedLe⟩,
                  fun k hk => Or.inl hk⟩
              · have hadm : j.grams_needed + reservedFor s.PrintJobs j.filament_id
                    ≤ fil.weight_grams := le_sub_iff_add_le.mp (not_lt.mp hlt)
                simp only [applyCmd, hp, hfil, if_neg hlt]
                constructor
                · refine ⟨hfilKeys, hfilNodup, ?_, ?_, ?_, ?_⟩
                  · intro e he
                    rcases StrMap.mem_set _ _ _ _ he with h | h
                    · subst h
                      rfl
                    · exact hjobKeys e h
                  · intro e he
                    rcases StrMap.mem_set _ _ _ _ he with h | h
                    · subst h
                      exact hg
                    · exact hjobNonneg e h
                  · intro e he
                    rcases StrMap.mem_set _ _ _ _ he with h | h
                    · subst h
                      show (s.Filaments.find? j.filament_id).isSome
                      simp [hfil]
                    · exact hjobFil e h
                  · intro e he
                    have he2 : e.1 = j.filament_id → e.2 = fil := by
                      intro hk
                      have hfe := StrMap.nodup_find?_of_mem s.Filaments e hfilNodup he
                      rw [hk, hfil] at hfe
                      exact (Option.some_inj.mp hfe).symm
                    cases hold : s.PrintJobs.find? j.id with
                    | none =>
                        show reservedFor (StrMap.set s.PrintJobs j.id
                          { j with status := "Queued" }) e.1 ≤ e.2.weight_grams
                        rw [StrMap.set_eq_append _ _ _ hold, reservedFor_append]
                        by_cases hefid : e.1 = j.filament_id
                        · have hc : contrib e.1 { j with status := "Queued" }
                              = j.grams_needed := by simp [contrib, hefid]
                          rw [hc, he2 hefid, hefid]
                          linarith [hadm]
                        · have hc : contrib e.1 { j with status := "Queued" } = 0 := by
                            simp [contrib]
                            intro hcd
                            exact absurd hcd.symm hefid
                          rw [hc, add_zero]
                          exact hreservedLe e he
                    | some old =>
                        show reservedFor (StrMap.set s.PrintJobs j.id
                          { j with status := "Queued" }) e.1 ≤ e.2.weight_grams
                        rw [reservedFor_set _ _ _ _ _ hold]
                        have holdnn : 0 ≤ contrib e.1 old :=
                          contrib_nonneg _ _
                            (hjobNonneg (j.id, old) (StrMap.find?_mem _ _ _ hold))
                        by_cases hefid : e.1 = j.filament_id
                        · have hc : contrib e.1 { j with status := "Queued" }
                              = j.grams_needed := by simp [contrib, hefid]
                          rw [hc, he2 hefid]
                          rw [hefid] at holdnn ⊢
                          linarith [hadm]
                        · have hc : contrib e.1 { j with status := "Queued" } = 0 := by
                            simp [contrib]
                            intro hcd
                            exact absurd hcd.symm hefid
                          rw [hc, add_zero]
                          linarith [hreservedLe e he, holdnn]
                · intro k hk
                  exact Or.inl hk
  | update_job_status u =>
      obtain ⟨jid, ns⟩ := u
      cases hju : s.PrintJobs.find? jid with
      | none =>
          simp only [applyCmd, hju]
          exact ⟨⟨hfilKeys, hfilNodup, hjobKeys, hjobNonneg, hjobFil, hreservedLe⟩,
            fun k hk => Or.inl hk⟩
      | some job =>
          have hjmem : (jid, job) ∈ s.PrintJobs := StrMap.find?_mem _ _ _ hju
          have hjid : jid = job.id := hjobKeys (jid, job) hjmem
          have hju2 : s.PrintJobs.find? job.id = some job := hjid ▸ hju
          have hjnn : 0 ≤ job.grams_needed := hjobNonneg (jid, job) hjmem
          simp only [applyCmd, hju]
          by_cases h1 : ns = "Running"
          · subst h1
            rw [if_pos rfl]
            by_cases hq : job.status = "Queued"
            · rw [if_pos hq]
              constructor
              · refine ⟨hfilKeys, hfilNodup, ?_, ?_, ?_, ?_⟩
                · intro e he
                  rcases StrMap.mem_set _ _ _ _ he with h | h
                  · subst h
                    rfl
                  · exact hjobKeys e h
                · intro e he
                  rcases StrMap.mem_set _ _ _ _ he with h | h
                  · subst h
                    exact hjnn
                  · exact hjobNonneg e h
                · intro e he
                  rcases StrMap.mem_set _ _ _ _ he with h | h
                  · subst h
                    exact hjobFil (jid, job) hjmem
                  · exact hjobFil e h
                · intro e he
                  show reservedFor (StrMap.set s.PrintJobs job.id
                    { job with status := "Running" }) e.1 ≤ e.2.weight_grams
                  rw [reservedFor_set _ _ _ _ _ hju2]
                  rw [contrib_active_swap e.1 job "Running" (Or.inl hq) (Or.inr rfl)]
                  rw [sub_add_cancel]
                  exact hreservedLe e he
              · intro k hk
                exact Or.inl hk
            · rw [if_neg hq]
              exact ⟨⟨hfilKeys, hfilNodup, hjobKeys, hjobNonneg, hjobFil, hreservedLe⟩,
                fun k hk => Or.inl hk⟩
          · rw [if_neg h1]
            by_cases h2 : ns = "Done"
            · subst h2
              rw [if_pos rfl]
              by_cases hr : job.status = "Running"
              · rw [if_pos hr]
                obtain ⟨filx, hfx⟩ :=
                  Option.isSome_iff_exists.mp (hjobFil (jid, job) hjmem)
                have hfxmem : (job.filament_id, filx) ∈ s.Filaments :=
                  StrMap.find?_mem _ _ _ hfx
                have hfxid : job.filament_id = filx.id := hfilKeys _ hfxmem
                rw [hfx]
                constructor
                · refine ⟨?_, ?_, ?_, ?_, ?_, ?_⟩
                  · intro e he
                    rcases StrMap.mem_set _ _ _ _ he with h | h
                    · subst h
                      exact hfxid
                    · exact hfilKeys e h
                  · exact StrMap.nodup_set _ _ _ hfilNodup
                  · intro e he
                    rcases StrMap.mem_set _ _ _ _ he with h | h
                    · subst h
                      rfl
                    · exact hjobKeys e h
                  · intro e he
                    rcases StrMap.mem_set _ _ _ _ he with h | h
                    · subst h
                      exact hjnn
                    · exact hjobNonneg e h
                  · intro e he
                    rcases StrMap.mem_set _ _ _ _ he with h | h
                    · subst h
                      apply StrMap.find?_isSome_set
                      exact hjobFil (jid, job) hjmem
                    · exact StrMap.find?_isSome_set _ _ _ _ (hjobFil e h)
                  · intro e he
                    have hrs : reservedFor (StrMap.set s.PrintJobs job.id
                        { job with status := "Done" }) e.1
                        = reservedFor s.PrintJobs e.1 - contrib e.1 job := by
                      rw [reservedFor_set _ _ _ _ _ hju2,
                        contrib_terminal e.1 job "Done" (Or.inl rfl), add_zero]
                    rcases StrMap.mem_set _ _ _ _ he with h | h
                    · subst h
                      show reservedFor (StrMap.set s.PrintJobs job.id
                        { job with status := "Done" }) job.filament_id
                        ≤ filx.weight_grams - job.grams_needed
                      rw [hrs]
                      have hc : contrib job.filament_id job = job.grams_needed := by
                        simp [contrib, hr]
                      rw [hc]
                      have hb := hreservedLe (job.filament_id, filx) hfxmem
                      exact sub_le_sub_right hb _
                    · show reservedFor (StrMap.set s.PrintJobs job.id
                        { job with status := "Done" }) e.1 ≤ e.2.weight_grams
                      rw [hrs]
                      have hcnn : 0 ≤ contrib e.1 job := contrib_nonneg _ _ hjnn
                      linarith [hreservedLe e h]
                · intro k hk
                  by_cases hkf : k = job.filament_id
                  · subst hkf
                    left
                    rw [hfx]
                    simp
                  · left
                    rwa [StrMap.find?_set_ne _ _ _ _ hkf] at hk
              · rw [if_neg hr]
                exact ⟨⟨hfilKeys, hfilNodup, hjobKeys, hjobNonneg, hjobFil, hreservedLe⟩,
                  fun k hk => Or.inl hk⟩
            · rw [if_neg h2]
              by_cases h3 : ns = "Canceled"
              · subst h3
                rw [if_pos rfl]
                by_cases hqr : job.status = "Queued" ∨ job.status = "Running"
                · rw [if_pos hqr]
                  constructor
                  · refine ⟨hfilKeys, hfilNodup, ?_, ?_, ?_, ?_⟩
                    · intro e he
                      rcases StrMap.mem_set _ _ _ _ he with h | h
                      · subst h
                        rfl
                      · exact hjobKeys e h
                    · intro e he
                      rcases StrMap.mem_set _ _ _ _ he with h | h
                      · subst h
                        exact hjnn
                      · exact hjobNonneg e h
                    · intro e he
                      rcases StrMap.mem_set _ _ _ _ he with h | h
                      · subst h
                        exact hjobFil (jid, job) hjmem
                      · exact hjobFil e h
                    · intro e he
                      show reservedFor (StrMap.set s.PrintJobs job.id
                        { job with status := "Canceled" }) e.1 ≤ e.2.weight_grams
                      rw [reservedFor_set _ _ _ _ _ hju2,
                        contrib_terminal e.1 job "Canceled" (Or.inr rfl), add_zero]
                      have hcnn : 0 ≤ contrib e.1 job := contrib_nonneg _ _ hjnn
                      linarith [hreservedLe e he]
                  · intro k hk
                    exact Or.inl hk
                · rw [if_neg hqr]
                  exact ⟨⟨hfilKeys, hfilNodup, hjobKeys, hjobNonneg, hjobFil, hreservedLe⟩,
                    fun k hk => Or.inl hk⟩
              · rw [if_neg h3]
                exact ⟨⟨hfilKeys, hfilNodup, hjobKeys, hjobNonneg, hjobFil, hreservedLe⟩,
                  fun k hk => Or.inl hk⟩

/-- The invariant holds after any command sequence with pairwise-distinct
`add_filament` ids (all fresh for the start state) and nonnegative client
payloads. -/
theorem inv_applyList (cs : List Command) : ∀ (s : FsmData), Inv s →
    (∀ c ∈ cs, cmdOK c = true) → (filIds cs).Nodup →
    (∀ i ∈ filIds cs, s.Filaments.find? i = none) →
    Inv (applyList s cs) := by
  induction cs with
  | nil =>
      intro s h _ _ _
      simpa [applyList] using h
  | cons c rest ih =>
      intro s hInv hok hnd hfresh
      have hokc := hok c (List.mem_cons_self c rest)
      have hfreshc : ∀ f, c = .add_filament f → s.Filaments.find? f.id = none := by
        intro f hcf
        apply hfresh
        subst hcf
        simp [filIds]
      obtain ⟨hInv2, hgrow⟩ := inv_applyCmd s c hInv hokc hfreshc
      have hrw : applyList s (c :: rest) = applyList (applyCmd s c).1 rest := by
        simp [applyList]
      rw [hrw]
      have hndrest : (filIds rest).Nodup := by
        cases c <;> simp [filIds] at hnd ⊢ <;> first | exact hnd | exact hnd.2
      refine ih _ hInv2 (fun c2 h2 => hok c2 (List.mem_cons_of_mem _ h2)) hndrest ?_
      intro i hi
      by_contra hne
      rcases hgrow i hne with hold | ⟨f, hcf, hif⟩
      · apply hold
        apply hfresh
        cases c <;> simp [filIds] at hi ⊢ <;> first | exact hi | exact Or.inr hi
      · subst hcf
        subst hif
        have hcons : filIds (Command.add_filament f :: rest) = f.id :: filIds rest := by
          simp [filIds]
        rw [hcons] at hnd
        exact (List.nodup_cons.mp hnd).1 hi

/-- Counterexample to C1 as stated: `add_filament` overwrites silently, so
after registering `f1` with 1000 g, queueing a 50 g job against it, and
re-registering `f1` with 10 g, the filament's reserved sum (50 g) exceeds its
weight (10 g). -/
theorem C1_reservation_counterexample :
    ¬ (∀ e ∈ (applyList initialState csC1cex).Filaments,
        reservedFor (applyList initialState csC1cex).PrintJobs e.2.id
          ≤ e.2.weight_grams) := by
  intro h
  have hst : applyList initialState csC1cex =
      ⟨[("p1", pW)], [("f1", fOverwrite)],
       [("job1", ⟨"job1", "/models/boat.gcode", 50, "p1", "f1", "Queued"⟩)]⟩ := by
    norm_num [csC1cex, csGood, applyList, applyCmd, initialState,
      StrMap.set, StrMap.find?, reservedFor, contrib, pW, fW, jobW, fOverwrite]
  rw [hst] at h
  have h2 := h ("f1", fOverwrite) (by simp)
  norm_num [reservedFor, contrib, fOverwrite] at h2

/-- C1 (amended).  Over any command sequence from the empty state in which the
`add_filament` commands carry pairwise-distinct filament ids and nonnegative
weights and the `add_print_job` payloads carry nonnegative `grams_needed`,
after every prefix each filament's reserved sum — `grams_needed` summed over
Queued and Running jobs referencing it — is at most its `weight_grams`. -/
theorem C1_reservation_amended (cs : List Command)
    (hok : ∀ c ∈ cs, cmdOK c = true)
    (hnd : (filIds cs).Nodup) :
    ∀ e ∈ (applyList initialState cs).Filaments,
      reservedFor (applyList initialState cs).PrintJobs e.2.id ≤ e.2.weight_grams := by
  have hInv := inv_applyList cs initialState inv_initial hok hnd
    (by intro i _; rfl)
  intro e he
  have h1 := hInv.reservedLe e he
  rwa [hInv.filKeys e he] at h1

/-- Witness for the amended C1 on the bootstrap sequence: printer, 1000 g
filament, one 50 g job. -/
theorem C1_reservation_amended_witness :
    (∀ c ∈ csGood, cmdOK c = true) ∧ (filIds csGood).Nodup ∧
    (∀ e ∈ (applyList initialState csGood).Filaments,
      reservedFor (applyList initialState csGood).PrintJobs e.2.id
        ≤ e.2.weight_grams) :=
  ⟨by decide, by decide, C1_reservation_amended csGood (by decide) (by decide)⟩

/-- Counterexample to C7 as stated: `add_filament` performs no validation, so
registering a filament with `weight_grams = −5` puts a negative weight in the
state. -/
theorem C7_weight_nonneg_counterexample :
    ¬ (∀ e ∈ (applyList initialState csC7cex).Filaments,
        0 ≤ e.2.weight_grams) := by
  intro h
  have h2 := h ("f2", fNeg) (by norm_num [csC7cex, applyList, applyCmd,
    initialState, StrMap.set, fNeg])
  norm_num [fNeg] at h2

/-- C7 (amended).  Over any command sequence from the empty state in which the
`add_filament` commands carry pairwise-distinct filament ids and nonnegative
weights and the `add_print_job` payloads carry nonnegative `grams_needed`,
every filament's `weight_grams` stays nonnegative after every prefix. -/
theorem C7_weight_nonneg_amended (cs : List Command)
    (hok : ∀ c ∈ cs, cmdOK c = true)
    (hnd : (filIds cs).Nodup) :
    ∀ e ∈ (applyList initialState cs).Filaments, 0 ≤ e.2.weight_grams := by
  have hInv := inv_applyList cs initialState inv_initial hok hnd
    (by intro i _; rfl)
  intro e he
  have h1 := hInv.reservedLe e he
  have h2 : 0 ≤ reservedFor (applyList initialState cs).PrintJobs e.1 :=
    reservedFor_nonneg _ _ hInv.jobNonneg
  linarith

/-- Witness for the amended C7: after the bootstrap sequence plus a full
Running → Done cycle, the remaining weights are still nonnegative. -/
theorem C7_weight_nonneg_amended_witness :
    (∀ c ∈ csC7wit, cmdOK c = true) ∧ (filIds csC7wit).Nodup ∧
    (∀ e ∈ (applyList initialState csC7wit).Filaments, 0 ≤ e.2.weight_grams) :=
  ⟨by decide, by decide, C7_weight_nonneg_amended csC7wit (by decide) (by decide)⟩

/-- Counterexample to C8 as stated: with the leader at `127.0.0.1:7001`, the
redirect for `POST /printers` (empty query) carries
`Location: http://127.0.0.1:8001/printers?` — the `fmt.Sprintf` format always
appends `?` — so it is not exactly `http://127.0.0.1:8001/printers`; and the
no-leader body is `"No leader found\n"` (`http.Error` appends a newline), not
`"No leader found"`. -/
theorem C8_redirect_counterexample :
    (redirectToLeader "127.0.0.1:7001" "/printers" "").location
        = some "http://127.0.0.1:8001/printers?"
    ∧ (redirectToLeader "127.0.0.1:7001" "/printers" "").location
        ≠ some "http://127.0.0.1:8001/printers"
    ∧ redirectToLeader "" "/printers" "" = ⟨503, "No leader found\n", none⟩
    ∧ (redirectToLeader "" "/printers" "").body ≠ "No leader found" := by
  refine ⟨?_, ?_, ?_, ?_⟩ <;> decide

/-- C8 (amended).  At a non-leader with known leader `host:raft_port`, the
handler responds 307 with `Location` equal to
`http://host:(raft_port+1000)` ++ path ++ `"?"` ++ query — including the
trailing `?` when the query is empty, so for `POST /printers` with leader
`127.0.0.1:7001` the Location is exactly `http://127.0.0.1:8001/printers?`;
with no known leader it responds 503 with body `"No leader found"` followed by
a newline. -/
theorem C8_redirect_amended (leaderAddr host portStr path rawQuery : String)
    (raftPort : Nat)
    (hne : leaderAddr ≠ "")
    (hsplit : splitHostPort leaderAddr = some (host, portStr))
    (hport : atoiNat portStr = some raftPort) :
    redirectToLeader leaderAddr path rawQuery =
      ⟨307, "",
        some ("http://" ++ host ++ ":" ++ toString (raftPort + 1000) ++ path ++ "?" ++ rawQuery)⟩
    ∧ redirectToLeader "" path rawQuery = ⟨503, "No leader found\n", none⟩ := by
  constructor
  · simp [redirectToLeader, hne, hsplit, hport]
  · simp [redirectToLeader, httpError]

/-- Witness for the amended C8 at the S6 scenario values. -/
theorem C8_redirect_amended_witness :
    redirectToLeader "127.0.0.1:7001" "/printers" "" =
      ⟨307, "", some "http://127.0.0.1:8001/printers?"⟩
    ∧ redirectToLeader "" "/printers" "" = ⟨503, "No leader found\n", none⟩ := by
  have h := C8_redirect_amended "127.0.0.1:7001" "127.0.0.1" "7001" "/printers" ""
    7001 (by decide) (by decide) (by decide)
  exact ⟨h.1.trans (by decide), h.2⟩

/-! ## Snapshot codec inversion -/

theorem expectChar_cons (c : Char) (rest : List Char) :
    expectChar c (c :: rest) = some rest := by
  simp [expectChar]

theorem expectChars_append_self (xs : List Char) :
    ∀ rest, expectChars xs (xs ++ rest) = some rest := by
  induction xs with
  | nil => intro rest; rfl
  | cons x xs ih => intro rest; simp [expectChars, ih]

theorem parseStrBody_escape (s : List Char) :
    ∀ rest, parseStrBody (escapeChars s ++ '"' :: rest) = some (s, rest) := by
  induction s with
  | nil =>
      intro rest
      show parseStrBody ('"' :: rest) = some ([], rest)
      unfold parseStrBody
      rw [if_neg (by decide), if_pos rfl]
  | cons c cs ih =>
      intro rest
      by_cases hc : c = '"' ∨ c = '\\'
      · simp [escapeChars, hc, parseStrBody, ih]
      · push_neg at hc
        have hsh : escapeChars (c :: cs) = c :: escapeChars cs := by
          simp [escapeChars, hc.1, hc.2]
        rw [hsh, List.cons_append]
        unfold parseStrBody
        rw [if_neg hc.2, if_neg hc.1, ih rest]

theorem parseString_enc (s : String) (rest : List Char) :
    parseString (encString s ++ rest) = some (s, rest) := by
  show parseString (('"' :: escapeChars s.data ++ ['"']) ++ rest) = some (s, rest)
  have hsh : ('"' :: escapeChars s.data ++ ['"']) ++ rest
      = '"' :: (escapeChars s.data ++ '"' :: rest) := by simp
  rw [hsh]
  simp [parseString, parseStrBody_escape]

theorem digitVal_digitChar (d : Nat) (hd : d < 10) :
    digitVal (digitChar d) = d := by
  interval_cases d <;> decide

theorem isDigitChar_digitChar (d : Nat) (hd : d < 10) :
    isDigitChar (digitChar d) = true := by
  interval_cases d <;> decide

theorem encNat_all_digits (n : Nat) :
    ∀ c ∈ encNat n, isDigitChar c = true := by
  intro c hc
  unfold encNat at hc
  by_cases hn : n = 0
  · simp [hn] at hc
    subst hc
    decide
  · simp only [hn, if_neg, not_false_iff, List.mem_map, List.mem_reverse] at hc
    obtain ⟨d, hd, rfl⟩ := hc
    exact isDigitChar_digitChar d (Nat.digits_lt_base (by norm_num) hd)

theorem encNat_ne_nil (n : Nat) : encNat n ≠ [] := by
  unfold encNat
  by_cases hn : n = 0
  · simp [hn]
  · simp only [hn, if_neg, not_false_iff, ne_eq, List.map_eq_nil_iff,
      List.reverse_eq_nil_iff]
    exact Nat.digits_ne_nil_iff_ne_zero.mpr hn

theorem takeDigits_append (ds : List Char) (hds : ∀ c ∈ ds, isDigitChar c = true) :
    ∀ rest, (∀ c, rest.head? = some c → isDigitChar c = false) →
      takeDigits (ds ++ rest) = (ds, rest) := by
  induction ds with
  | nil =>
      intro rest hrest
      cases rest with
      | nil => rfl
      | cons c cs =>
          have hc := hrest c rfl
          simp [takeDigits, hc]
  | cons d ds ih =>
      intro rest hrest
      have hd := hds d (List.mem_cons_self d ds)
      simp [takeDigits, hd, ih (fun c hc => hds c (List.mem_cons_of_mem _ hc)) rest hrest]

theorem parseNat_enc (n : Nat) (rest : List Char)
    (hrest : ∀ c, rest.head? = some c → isDigitChar c = false) :
    parseNat (encNat n ++ rest) = some (n, rest) := by
  have htake : takeDigits (encNat n ++ rest) = (encNat n, rest) :=
    takeDigits_append (encNat n) (encNat_all_digits n) rest hrest
  obtain ⟨c0, cs0, hsh⟩ := List.exists_cons_of_ne_nil (encNat_ne_nil n)
  have hval : Nat.ofDigits 10 (((encNat n).map digitVal).reverse) = n := by
    unfold encNat
    by_cases hn : n = 0
    · simp [hn, digitVal]
    · simp only [hn, if_neg, not_false_iff, List.map_map, List.map_reverse,
        List.reverse_reverse]
      have hmap : (Nat.digits 10 n).map (digitVal ∘ digitChar) = Nat.digits 10 n := by
        conv_rhs => rw [← List.map_id (Nat.digits 10 n)]
        apply List.map_congr_left
        intro d hd
        exact digitVal_digitChar d (Nat.digits_lt_base (by norm_num) hd)
      rw [hmap, Nat.ofDigits_digits]
  unfold parseNat
  rw [htake, hsh]
  show some (Nat.ofDigits 10 ((List.map digitVal (c0 :: cs0)).reverse), rest)
      = some (n, rest)
  rw [← hsh, hval]

theorem isDigitChar_ne_dash (c : Char) (h : isDigitChar c = true) : ¬(c = '-') := by
  intro hc
  subst hc
  simp [isDigitChar] at h

theorem parseInt_cons (c : Char) (cs : List Char) :
    parseInt (c :: cs) =
      if c = '-' then
        match parseNat cs with
        | some (n, rest) => some (-(n : Int), rest)
        | none => none
      else
        match parseNat (c :: cs) with
        | some (n, rest) => some ((n : Int), rest)
        | none => none := rfl

theorem parseInt_enc (i : Int) (rest : List Char)
    (hrest : ∀ c, rest.head? = some c → isDigitChar c = false) :
    parseInt (encInt i ++ rest) = some (i, rest) := by
  by_cases hi : i < 0
  · have hsh : encInt i = '-' :: encNat i.natAbs := by simp [encInt, hi]
    rw [hsh, List.cons_append, parseInt_cons, if_pos rfl,
      parseNat_enc i.natAbs rest hrest]
    show some (-((i.natAbs : Int)), rest) = some (i, rest)
    have habs : -((i.natAbs : Int)) = i := by omega
    rw [habs]
  · have hsh : encInt i = encNat i.natAbs := by simp [encInt, hi]
    obtain ⟨c0, cs0, hcons⟩ := List.exists_cons_of_ne_nil (encNat_ne_nil i.natAbs)
    have hc0 : isDigitChar c0 = true :=
      encNat_all_digits i.natAbs c0 (by rw [hcons]; exact List.mem_cons_self _ _)
    have hdash : ¬(c0 = '-') := isDigitChar_ne_dash c0 hc0
    rw [hsh, hcons, List.cons_append, parseInt_cons, if_neg hdash,
      ← List.cons_append, ← hcons, parseNat_enc i.natAbs rest hrest]
    show some (((i.natAbs : Int)), rest) = some (i, rest)
    have habs : ((i.natAbs : Int)) = i := by omega
    rw [habs]

theorem parseRat_enc (q : Rat) (rest : List Char)
    (hrest : ∀ c, rest.head? = some c → isDigitChar c = false) :
    parseRat (encRat q ++ rest) = some (q, rest) := by
  show parseRat ((encInt q.num ++ '/' :: encNat q.den) ++ rest) = some (q, rest)
  have hsh : (encInt q.num ++ '/' :: encNat q.den) ++ rest
      = encInt q.num ++ ('/' :: (encNat q.den ++ rest)) := by simp
  rw [hsh]
  have h1 : parseInt (encInt q.num ++ ('/' :: (encNat q.den ++ rest)))
      = some (q.num, '/' :: (encNat q.den ++ rest)) :=
    parseInt_enc q.num _ (fun c hc => by
      simp at hc
      subst hc
      decide)
  unfold parseRat
  rw [h1]
  simp [parseNat_enc q.den rest hrest, Rat.mkRat_self]

theorem parseKeyString_enc (key : String) (c : Char) (sv : String)
    (rest : List Char) :
    parseKeyString key c (encKey key ++ (encString sv ++ c :: rest))
      = some (sv, rest) := by
  unfold parseKeyString
  simp only [expectChars_append_self, Option.some_bind, parseString_enc,
    expectChar_cons]

theorem parseKeyRat_enc (key : String) (c : Char) (q : Rat) (rest : List Char)
    (hc : isDigitChar c = false) :
    parseKeyRat key c (encKey key ++ (encRat q ++ c :: rest)) = some (q, rest) := by
  unfold parseKeyRat
  have hq : parseRat (encRat q ++ c :: rest) = some (q, c :: rest) :=
    parseRat_enc q (c :: rest) (fun c2 hc2 => by
      simp at hc2
      subst hc2
      exact hc)
  simp only [expectChars_append_self, Option.some_bind, hq, expectChar_cons]

theorem parsePrinter_enc (p : Printer) (rest : List Char) :
    parsePrinter (encPrinter p ++ rest) = some (p, rest) := by
  unfold parsePrinter encPrinter
  simp only [List.cons_append, List.append_assoc, List.nil_append,
    expectChar_cons, Option.some_bind, parseKeyString_enc]

theorem parseFilament_enc (f : Filament) (rest : List Char) :
    parseFilament (encFilament f ++ rest) = some (f, rest) := by
  unfold parseFilament encFilament
  have h4 := parseKeyRat_enc "weight_grams" '\x7d' f.weight_grams rest (by decide)
  simp only [List.cons_append, List.append_assoc, List.nil_append,
    expectChar_cons, Option.some_bind, parseKeyString_enc, h4]

theorem parsePrintJob_enc (j : PrintJob) (rest : List Char) :
    parsePrintJob (encPrintJob j ++ rest) = some (j, rest) := by
  unfold parsePrintJob encPrintJob
  have h3 : ∀ r : List Char, parseKeyRat "grams_needed" ',' (encKey "grams_needed"
      ++ (encRat j.grams_needed ++ ',' :: r)) = some (j.grams_needed, r) :=
    fun r => parseKeyRat_enc "grams_needed" ',' j.grams_needed r (by decide)
  simp only [List.cons_append, List.append_assoc, List.nil_append,
    expectChar_cons, Option.some_bind, parseKeyString_enc, h3]

theorem encEntriesAux_length {V : Type} (encV : V → List Char) :
    ∀ m : StrMap V, m.length ≤ (encEntriesAux encV m).length := by
  intro m
  induction m with
  | nil => simp [encEntriesAux]
  | cons e m' ih =>
      cases m' with
      | nil => simp [encEntriesAux, encString]
      | cons e2 m'' =>
          simp only [encEntriesAux, List.length_cons, List.length_append,
            List.length_cons] at ih ⊢
          have hk : 2 ≤ (encString e.1).length := by
            show 2 ≤ ('"' :: escapeChars e.1.data ++ ['"']).length
            simp
          omega

theorem encEntriesAux_head {V : Type} (encV : V → List Char) (e : String × V)
    (m' : StrMap V) :
    ∃ tl, encEntriesAux encV (e :: m') = '"' :: tl := by
  cases m' with
  | nil =>
      refine ⟨escapeChars e.1.data ++ '"' :: ':' :: encV e.2, ?_⟩
      simp [encEntriesAux, encString]
  | cons e2 m'' =>
      refine ⟨escapeChars e.1.data ++ '"' :: ':' ::
        (encV e.2 ++ ',' :: encEntriesAux encV (e2 :: m'')), ?_⟩
      simp [encEntriesAux, encString]

theorem parseEntries_enc {V : Type} (encV : V → List Char)
    (parseV : List Char → Option (V × List Char))
    (hV : ∀ v r, parseV (encV v ++ r) = some (v, r)) :
    ∀ (m : StrMap V), m ≠ [] → ∀ (fuel : Nat), m.length ≤ fuel → ∀ rest,
      parseEntries parseV fuel (encEntriesAux encV m ++ '\x7d' :: rest)
        = some (m, '\x7d' :: rest) := by
  intro m
  induction m with
  | nil => intro h; exact absurd rfl h
  | cons e m' ih =>
      intro _ fuel hf rest
      obtain ⟨f, rfl⟩ : ∃ f, fuel = f + 1 :=
        ⟨fuel - 1, by simp at hf; omega⟩
      cases m' with
      | nil =>
          show parseEntries parseV (f + 1)
            ((encString e.1 ++ ':' :: encV e.2 ++ []) ++ '\x7d' :: rest)
            = some ([e], '\x7d' :: rest)
          unfold parseEntries
          simp only [List.append_nil, List.cons_append, List.append_assoc,
            parseString_enc, Option.some_bind, expectChar_cons, hV]
          rw [if_neg (by decide)]
      | cons e2 m'' =>
          have hih := ih (by simp) f (by simp at hf ⊢; omega) rest
          show parseEntries parseV (f + 1)
            ((encString e.1 ++ ':' :: encV e.2 ++
              ',' :: encEntriesAux encV (e2 :: m'')) ++ '\x7d' :: rest)
            = some (e :: e2 :: m'', '\x7d' :: rest)
          unfold parseEntries
          simp only [List.cons_append, List.append_assoc, parseString_enc,
            Option.some_bind, expectChar_cons, hV]
          rw [hih]
          rfl

theorem parseMap_enc {V : Type} (encV : V → List Char)
    (parseV : List Char → Option (V × List Char))
    (hV : ∀ v r, parseV (encV v ++ r) = some (v, r)) :
    ∀ (m : StrMap V) (rest : List Char),
      parseMap parseV (encMap encV m ++ rest) = some (m, rest) := by
  intro m rest
  cases m with
  | nil =>
      show parseMap parseV (('\x7b' :: [] ++ ['\x7d']) ++ rest) = some ([], rest)
      simp [parseMap, expectChar]
  | cons e m' =>
      obtain ⟨tl, htl⟩ := encEntriesAux_head encV e m'
      have heq : encEntriesAux encV (e :: m') ++ '\x7d' :: rest
          = '"' :: (tl ++ '\x7d' :: rest) := by
        rw [htl]
        simp
      have hpe2 : parseEntries parseV ('"' :: (tl ++ '\x7d' :: rest)).length
          ('"' :: (tl ++ '\x7d' :: rest)) = some (e :: m', '\x7d' :: rest) := by
        rw [← heq]
        apply parseEntries_enc encV parseV hV (e :: m') (by simp)
        have h1 := encEntriesAux_length encV (e :: m')
        simp only [List.length_append]
        omega
      have hstream : encMap encV (e :: m') ++ rest
          = '\x7b' :: '"' :: (tl ++ '\x7d' :: rest) := by
        show ('\x7b' :: encEntriesAux encV (e :: m') ++ ['\x7d']) ++ rest = _
        rw [htl]
        simp
      rw [hstream]
      show (match parseEntries parseV ('"' :: (tl ++ '\x7d' :: rest)).length
          ('"' :: (tl ++ '\x7d' :: rest)) with
        | some (m2, r3) =>
          (match expectChar '\x7d' r3 with
            | some r4 => some (m2, r4)
            | none => none)
        | none => none) = some (e :: m', rest)
      rw [hpe2]
      rfl

theorem parseKeyMap_enc {V : Type} (key : String) (encV : V → List Char)
    (parseV : List Char → Option (V × List Char))
    (hV : ∀ v r, parseV (encV v ++ r) = some (v, r))
    (c : Char) (m : StrMap V) (rest : List Char) :
    parseKeyMap key parseV c (encKey key ++ (encMap encV m ++ c :: rest))
      = some (m, rest) := by
  unfold parseKeyMap
  simp only [expectChars_append_self, Option.some_bind, parseMap_enc encV parseV hV,
    expectChar_cons]

theorem parseFsmData_enc (s : FsmData) (rest : List Char) :
    parseFsmData (encodeFsmData s ++ rest) = some (s, rest) := by
  unfold parseFsmData encodeFsmData
  have h1 := fun r => parseKeyMap_enc "Printers" encPrinter parsePrinter
    parsePrinter_enc ',' s.Printers r
  have h2 := fun r => parseKeyMap_enc "Filaments" encFilament parseFilament
    parseFilament_enc ',' s.Filaments r
  have h3 := fun r => parseKeyMap_enc "PrintJobs" encPrintJob parsePrintJob
    parsePrintJob_enc '\x7d' s.PrintJobs r
  simp only [List.cons_append, List.append_assoc, List.nil_append,
    expectChar_cons, Option.some_bind, h1, h2, h3]

theorem cloneMap_foldl {V : Type} :
    ∀ (m acc : StrMap V),
    (∀ e ∈ m, acc.find? e.1 = none) → (m.map Prod.fst).Nodup →
    m.foldl (fun a e => StrMap.set a e.1 e.2) acc = acc ++ m := by
  intro m
  induction m with
  | nil => intro acc _ _; simp
  | cons e m' ih =>
      intro acc hacc hnd
      simp only [List.map_cons, List.nodup_cons] at hnd
      have hset : StrMap.set acc e.1 e.2 = acc ++ [e] := by
        rw [StrMap.set_eq_append _ _ _ (hacc e (List.mem_cons_self _ _))]
      have hacc2 : ∀ e2 ∈ m', (StrMap.set acc e.1 e.2).find? e2.1 = none := by
        intro e2 he2
        have hne : e2.1 ≠ e.1 := by
          intro hh
          exact hnd.1 (hh ▸ List.mem_map.mpr ⟨e2, he2, rfl⟩)
        rw [StrMap.find?_set_ne _ _ _ _ hne]
        exact hacc e2 (List.mem_cons_of_mem _ he2)
      show List.foldl (fun a e => StrMap.set a e.1 e.2) (StrMap.set acc e.1 e.2) m'
        = acc ++ e :: m'
      rw [ih (StrMap.set acc e.1 e.2) hacc2 hnd.2, hset]
      simp

theorem cloneMap_eq {V : Type} (m : StrMap V) (h : m.NodupKeys) :
    cloneMap m = m := by
  unfold cloneMap
  rw [cloneMap_foldl m [] (fun e _ => rfl) h]
  simp

/-- C6.  For any state whose three maps have unique keys (as every Go map
does), taking a snapshot (cloning the maps), persisting it through the sink as
the JSON document, and restoring from the persisted bytes recovers the state
exactly: Printers, Filaments and PrintJobs all round-trip. -/
theorem C6_snapshot_roundtrip (s : FsmData)
    (h1 : s.Printers.NodupKeys) (h2 : s.Filaments.NodupKeys)
    (h3 : s.PrintJobs.NodupKeys) :
    restoreSnapshot (persistSnapshot (takeSnapshot s)) = some s := by
  have hsnap : takeSnapshot s = s := by
    unfold takeSnapshot
    rw [cloneMap_eq _ h1, cloneMap_eq _ h2, cloneMap_eq _ h3]
  rw [hsnap]
  have hp : parseFsmData (encodeFsmData s ++ []) = some (s, []) :=
    parseFsmData_enc s []
  rw [List.append_nil] at hp
  unfold restoreSnapshot persistSnapshot
  rw [show (⟨encodeFsmData s⟩ : String).data = encodeFsmData s from rfl, hp]

/-- Witness for C6 on a one-entry-per-map state. -/
theorem C6_snapshot_roundtrip_witness :
    restoreSnapshot (persistSnapshot (takeSnapshot sSnap)) = some sSnap :=
  C6_snapshot_roundtrip sSnap
    (by show (sSnap.Printers.map Prod.fst).Nodup; decide)
    (by show (sSnap.Filaments.map Prod.fst).Nodup; decide)
    (by show (sSnap.PrintJobs.map Prod.fst).Nodup; decide)

/-- C2 (code bug).  On the leader, a committed `add_print_job` whose FSM apply
result is a domain failure (here: unknown printer id) is invisible to the
handler: `Store.Apply` as written returns only the consensus error and never
`future.Response()`, so `storeApply` yields `nil` and the handler answers
`200 OK` — the 400-with-message translation that server.go writes around
`resp.(error)` can never fire. -/
theorem C2_fsm_failure_dropped_by_store :
    (applyCmd initialState (.add_print_job jC2)).2 = .err (printerNotFoundMsg "p9")
    ∧ storeApply true (.committed ((applyCmd initialState (.add_print_job jC2)).2)) = none
    ∧ handleAddPrintJobOnLeader
        (.committed ((applyCmd initialState (.add_print_job jC2)).2)) = ⟨200, "", none⟩ :=
  ⟨by decide, by decide, by decide⟩

end Raft3D
